import Mathlib

/-!
Verification of the real-time room synchronization engine of the
CodeBridge repository (`server/src/socket/index.js`).

The JavaScript module keeps several process-wide `Map`s
(`roomUsers`, `roomHosts`, `roomSettings`, `saveTimers`, `pendingSaves`,
`global.voiceRooms`) plus per-socket fields (`socket.roomId`,
`socket.user`, `socket.voicePeerId`), and registers handlers for the
socket events (`join-room`, `leave-room`, `disconnect`, `code-change`,
`chat-message`, `voice-join`, the `host-*` commands, ...).  We embed the
relevant state as a Lean structure, each handler as a pure function from
state to state paired with the list of emissions (socket broadcasts and
durable-store operations), and event sequences as folds of a `step`
function.
-/

namespace CodeBridge

/-! ## JavaScript `Map` semantics over association lists

A JS `Map` is an insertion-ordered dictionary: `set` updates an existing
key in place (keeping its position) or appends a new entry at the end;
`delete` removes the entry; iteration (`keys()`, `for .. of`) follows
insertion order.  We model it as a `List (K × V)`. -/

namespace JsMap

variable {K : Type} {V : Type} [DecidableEq K]

/-- `Map.get(k)`: the value at `k`, if present. -/
def get (m : List (K × V)) (k : K) : Option V :=
  match m with
  | [] => none
  | p :: rest => if p.1 = k then some p.2 else get rest k

/-- `Map.has(k)`. -/
def hasKey (m : List (K × V)) (k : K) : Bool :=
  (get m k).isSome

/-- `Map.set(k, v)`: update the entry in place if the key is present
(a JS `Map` keeps the key's original position), else append at the end.
Since a `Map` never holds duplicate keys, replacing the first matching
entry is exactly the in-place update. -/
def set (m : List (K × V)) (k : K) (v : V) : List (K × V) :=
  match m with
  | [] => [(k, v)]
  | p :: rest => if p.1 = k then (k, v) :: rest else p :: set rest k v

/-- `Map.delete(k)`. -/
def del (m : List (K × V)) (k : K) : List (K × V) :=
  match m with
  | [] => []
  | p :: rest => if p.1 = k then del rest k else p :: del rest k

@[simp] theorem get_nil (k : K) : get ([] : List (K × V)) k = none := rfl

theorem get_cons (p : K × V) (m : List (K × V)) (k : K) :
    get (p :: m) k = if p.1 = k then some p.2 else get m k := rfl

@[simp] theorem get_set_self (m : List (K × V)) (k : K) (v : V) :
    get (set m k v) k = some v := by
  induction m with
  | nil => simp [set, get]
  | cons p rest ih =>
    by_cases hp : p.1 = k <;> simp [set, get, hp, ih]

@[simp] theorem get_set_ne (m : List (K × V)) (k k' : K) (v : V) (h : k' ≠ k) :
    get (set m k v) k' = get m k' := by
  induction m with
  | nil => simp [set, get, Ne.symm h]
  | cons p rest ih =>
    by_cases hp : p.1 = k
    · simp [set, get, hp, Ne.symm h, hp ▸ Ne.symm h]
    · by_cases hp' : p.1 = k' <;> simp [set, get, hp, hp', ih, h]

@[simp] theorem get_del_self (m : List (K × V)) (k : K) :
    get (del m k) k = none := by
  induction m with
  | nil => rfl
  | cons p rest ih =>
    by_cases hp : p.1 = k <;> simp [del, get, hp, ih]

@[simp] theorem get_del_ne (m : List (K × V)) (k k' : K) (h : k' ≠ k) :
    get (del m k) k' = get m k' := by
  induction m with
  | nil => rfl
  | cons p rest ih =>
    by_cases hp : p.1 = k
    · simp [del, get, hp, hp ▸ Ne.symm h, ih, Ne.symm h]
    · by_cases hp' : p.1 = k' <;> simp [del, get, hp, hp', ih, h]

theorem get_head (k : K) (v : V) (m : List (K × V)) :
    get ((k, v) :: m) k = some v := by
  simp [get_cons]

theorem set_set_self (m : List (K × V)) (k : K) (v w : V) :
    set (set m k v) k w = set m k w := by
  induction m with
  | nil => simp [set]
  | cons p rest ih => by_cases hp : p.1 = k <;> simp [set, hp, ih]

theorem set_ne_nil (m : List (K × V)) (k : K) (v : V) : set m k v ≠ [] := by
  cases m with
  | nil => simp [set]
  | cons p rest => by_cases hp : p.1 = k <;> simp [set, hp]

theorem mem_keys_set (m : List (K × V)) (k k' : K) (v : V)
    (h : k' ∈ (set m k v).map Prod.fst) : k' ∈ m.map Prod.fst ∨ k' = k := by
  induction m with
  | nil => simp [set] at h; simp [h]
  | cons p rest ih =>
    by_cases hp : p.1 = k
    · simp only [set, hp, if_true, List.map_cons] at h
      rcases List.mem_cons.mp h with h | h
      · right; exact h
      · left; exact List.mem_cons_of_mem _ h
    · simp only [set, hp, if_false, List.map_cons] at h
      rcases List.mem_cons.mp h with h | h
      · left; exact h ▸ List.mem_cons_self _ _
      · rcases ih h with h' | h'
        · left; exact List.mem_cons_of_mem _ h'
        · right; exact h'

theorem nodup_keys_set (m : List (K × V)) (k : K) (v : V)
    (h : (m.map Prod.fst).Nodup) : ((set m k v).map Prod.fst).Nodup := by
  induction m with
  | nil => simp [set]
  | cons p rest ih =>
    simp only [List.map_cons, List.nodup_cons] at h
    by_cases hp : p.1 = k
    · simp only [set, hp, if_true, List.map_cons, List.nodup_cons]
      exact ⟨hp ▸ h.1, h.2⟩
    · simp only [set, hp, if_false, List.map_cons, List.nodup_cons]
      refine ⟨fun hmem => ?_, ih h.2⟩
      rcases mem_keys_set rest k p.1 v hmem with h' | h'
      · exact h.1 h'
      · exact hp h'

end JsMap

/-! ## Data model

The in-memory state of `server/src/socket/index.js`: the module-level
maps `roomUsers`, `roomHosts`, `roomSettings`, `saveTimers`,
`pendingSaves`, the voice roster `global.voiceRooms`, and the
per-socket fields (`socket.user`, `socket.roomId`, `socket.voicePeerId`,
plus the per-connection `voiceParticipants` map captured by the second
`voice-join` handler's closure). -/

/-- `socket.user` / the per-member record stored in `roomUsers`
(`{ id, username, isGuest, socketId }`). -/
structure UserInfo where
  uid : String
  username : String
  isGuest : Bool
  socketId : String
deriving Repr, DecidableEq

/-- An entry of `roomSettings` (`{ chatDisabled: false }`). -/
structure RoomSettingsRec where
  chatDisabled : Bool
deriving Repr, DecidableEq

/-- An entry of `global.voiceRooms[roomId]`. -/
structure VoiceParticipant where
  peerId : String
  socketId : String
  isMuted : Bool
  username : String
deriving Repr, DecidableEq

/-- The persisted room document (`Room.findOne({ roomId })`): only its
`host` field (the persisted owner's account id, nullable) is consulted
by the join handler. -/
structure RoomDoc where
  host : Option String
deriving Repr, DecidableEq

/-- Per-socket state. -/
structure SocketSt where
  user : UserInfo
  roomId : Option String
  voicePeerId : Option String
  /-- The per-connection `voiceParticipants : Map(roomId → Set(peerId))`
  captured by the second `voice-join` handler registered on each socket. -/
  voiceParticipants : List (String × List String)
deriving Repr, DecidableEq

/-- The whole process-wide mutable state of the socket module. -/
structure ServerState where
  sockets : List (String × SocketSt)
  roomUsers : List (String × List (String × UserInfo))
  roomHosts : List (String × String)
  roomSettings : List (String × RoomSettingsRec)
  saveTimers : List (String × Nat)
  /-- Fresh timer handles: `setTimeout` returns a new handle each call;
  we model handles as a monotone counter so a cancelled (replaced)
  handle can never fire again. -/
  nextTimer : Nat
  pendingSaves : List (String × List (String × String))
  voiceRooms : List (String × List VoiceParticipant)
deriving Repr, DecidableEq

def initState : ServerState :=
  { sockets := [], roomUsers := [], roomHosts := [], roomSettings := [],
    saveTimers := [], nextTimer := 0, pendingSaves := [], voiceRooms := [] }

/-! ## Observable outputs

Socket emissions and durable-store calls, recorded as a list per
handled event. -/

inductive Msg where
  | roomStateSnap (room : String)
  | userJoined (sid : String)
  | userLeft (sid : String)
  | hostChanged (hostSocketId : String)
  | chatToggled (disabled : Bool) (byUser : String)
  | chatMsg (userId username message : String)
  | sessionEnded (byUser : String)
  | youWereKicked (byUser : String)
  | hostError (message : String)
  | codeChangeMsg (fileId content : String)
  | voiceJoined (peerId sid : String)
  | voiceParticipantList (peers : List String)
deriving Repr, DecidableEq

inductive DbOp where
  | updateFileContent (roomId fileId content : String)
  | updateFileFailed (roomId fileId : String)
  | pushChatMessage (roomId userId username message : String)
deriving Repr, DecidableEq

inductive Output where
  /-- `io.to(room).emit(...)`: everyone in the room. -/
  | toAll (room : String) (m : Msg)
  /-- `socket.to(room).emit(...)`: the room minus the sender. -/
  | toOthers (room sid : String) (m : Msg)
  /-- `socket.emit(...)` / `io.to(socketId).emit(...)`: one socket. -/
  | toSock (sid : String) (m : Msg)
  /-- A call into the durable store (`RoomState.findOneAndUpdate`). -/
  | store (op : DbOp)
deriving Repr, DecidableEq

/-! ## Handlers -/

/-- JS truthiness for the room-id guards (`if (!roomId) return;`):
`null`/`undefined` and the empty string are falsy. -/
def currentRoom (s : Option String) : Option String :=
  match s with
  | some str => if str = "" then none else some str
  | none => none

/-- JS `String.prototype.trim()`: strip leading and trailing
whitespace.  (Defined over the character list so that it reduces inside
the kernel.) -/
def jsTrim (s : String) : String :=
  ⟨((s.data.dropWhile Char.isWhitespace).reverse.dropWhile Char.isWhitespace).reverse⟩

/-- JS `a || b` on nullable strings. -/
def jsOr (a b : Option String) : Option String :=
  match a with
  | some s => if s = "" then b else some s
  | none => b

/-- A new transport connection (after the auth middleware): a socket
with no current room. -/
def connectSocket (st : ServerState) (sid : String) (user : UserInfo) :
    ServerState × List Output :=
  let sock : SocketSt := ⟨user, none, none, []⟩
  ({ st with sockets := JsMap.set st.sockets sid sock }, [])

/-- The `join-room` handler.  `roomDoc` is the result of the awaited
`Room.findOne({ roomId })` (the persisted-room collaborator); the
handler is modelled as one atomic step with that result supplied as a
parameter. -/
def joinRoom (st : ServerState) (sid roomId : String)
    (displayName : Option String) (roomDoc : Option RoomDoc) :
    ServerState × List Output :=
  match JsMap.get st.sockets sid with
  | none => (st, [])
  | some sock0 =>
    let trimmed := jsTrim (displayName.getD "")
    let user := if trimmed ≠ "" then { sock0.user with username := trimmed } else sock0.user
    let sock1 := { sock0 with roomId := some roomId, user := user }
    let sockets1 := JsMap.set st.sockets sid sock1
    let users0 := (JsMap.get st.roomUsers roomId).getD []
    let member : UserInfo := { user with socketId := sid }
    let users1 := JsMap.set users0 sid member
    let roomUsers1 := JsMap.set st.roomUsers roomId users1
    let hosts1 :=
      if (JsMap.get st.roomHosts roomId).isNone then
        JsMap.set st.roomHosts roomId sid
      else st.roomHosts
    let settings1 :=
      if (JsMap.get st.roomSettings roomId).isNone then
        JsMap.set st.roomSettings roomId { chatDisabled := false }
      else st.roomSettings
    let hosts2 :=
      match roomDoc with
      | some doc =>
        if doc.host ≠ none ∧ doc.host = some user.uid then
          JsMap.set hosts1 roomId sid
        else if (JsMap.get hosts1 roomId).isNone then
          if doc.host = none then JsMap.set hosts1 roomId sid else hosts1
        else hosts1
      | none =>
        if (JsMap.get hosts1 roomId).isNone then JsMap.set hosts1 roomId sid
        else hosts1
    ({ st with sockets := sockets1, roomUsers := roomUsers1,
               roomHosts := hosts2, roomSettings := settings1 },
     [Output.toSock sid (Msg.roomStateSnap roomId),
      Output.toOthers roomId sid (Msg.userJoined sid)])

/-- `handleLeaveRoom(socket, io)`: shared by `leave-room`, `disconnect`,
kick and end-session. -/
def handleLeaveRoom (st : ServerState) (sid : String) : ServerState × List Output :=
  match JsMap.get st.sockets sid with
  | none => (st, [])
  | some sock =>
    match currentRoom sock.roomId with
    | none => (st, [])
    | some roomId =>
      let clearRoomId : ServerState → ServerState := fun s =>
        { s with sockets := JsMap.set s.sockets sid { sock with roomId := none } }
      match JsMap.get st.roomUsers roomId with
      | none => (clearRoomId st, [])
      | some users =>
        let users' := JsMap.del users sid
        let st1 := { st with roomUsers := JsMap.set st.roomUsers roomId users' }
        let promoted : Option String :=
          if JsMap.get st1.roomHosts roomId = some sid then
            match users' with
            | [] => none
            | (h, _) :: _ => some h
          else none
        let st2 :=
          match promoted with
          | some h => { st1 with roomHosts := JsMap.set st1.roomHosts roomId h }
          | none => st1
        let outs1 :=
          match promoted with
          | some h => [Output.toAll roomId (Msg.hostChanged h)]
          | none => []
        let st3 :=
          if users'.length = 0 then
            { st2 with roomUsers := JsMap.del st2.roomUsers roomId,
                       roomHosts := JsMap.del st2.roomHosts roomId,
                       roomSettings := JsMap.del st2.roomSettings roomId }
          else st2
        (clearRoomId st3, outs1 ++ [Output.toOthers roomId sid (Msg.userLeft sid)])

/-- `isHost(socket)`. -/
def isHost (st : ServerState) (sid : String) : Bool :=
  match JsMap.get st.sockets sid with
  | none => false
  | some sock =>
    match currentRoom sock.roomId with
    | none => false
    | some r => decide (JsMap.get st.roomHosts r = some sid)

/-- The `host-transfer` handler. -/
def hostTransfer (st : ServerState) (sid targetSid : String) : ServerState × List Output :=
  match JsMap.get st.sockets sid with
  | none => (st, [])
  | some sock =>
    if isHost st sid then
      match currentRoom sock.roomId with
      | none => (st, [])
      | some roomId =>
        match JsMap.get st.roomUsers roomId with
        | none => (st, [])
        | some users =>
          if JsMap.hasKey users targetSid then
            ({ st with roomHosts := JsMap.set st.roomHosts roomId targetSid },
             [Output.toAll roomId (Msg.hostChanged targetSid)])
          else (st, [])
    else (st, [Output.toSock sid (Msg.hostError "Only the host can transfer host role")])

/-- The `host-toggle-chat` handler. -/
def hostToggleChat (st : ServerState) (sid : String) (disabled : Bool) :
    ServerState × List Output :=
  match JsMap.get st.sockets sid with
  | none => (st, [])
  | some sock =>
    if isHost st sid then
      match currentRoom sock.roomId with
      | none => (st, [])
      | some roomId =>
        let settings' :=
          if JsMap.hasKey st.roomSettings roomId then
            JsMap.set st.roomSettings roomId { chatDisabled := disabled }
          else st.roomSettings
        ({ st with roomSettings := settings' },
         [Output.toAll roomId (Msg.chatToggled disabled sock.user.username)])
    else (st, [Output.toSock sid (Msg.hostError "Only the host can toggle chat")])

/-- The `host-kick-user` handler. -/
def hostKick (st : ServerState) (sid targetSid : String) : ServerState × List Output :=
  match JsMap.get st.sockets sid with
  | none => (st, [])
  | some sock =>
    if isHost st sid then
      match JsMap.get st.sockets targetSid with
      | none => (st, [])
      | some tsock =>
        if tsock.roomId = sock.roomId then
          let r := handleLeaveRoom st targetSid
          (r.1, Output.toSock targetSid (Msg.youWereKicked sock.user.username) :: r.2)
        else (st, [])
    else (st, [Output.toSock sid (Msg.hostError "Only the host can kick users")])

/-- Fold `handleLeaveRoom` over a list of socket ids (the
`roomSocketIds.forEach` loop of `host-end-session`). -/
def leaveAll (st : ServerState) (sids : List String) : ServerState × List Output :=
  match sids with
  | [] => (st, [])
  | s :: rest =>
    let r1 := handleLeaveRoom st s
    let r2 := leaveAll r1.1 rest
    (r2.1, r1.2 ++ r2.2)

/-- The `host-end-session` handler. -/
def hostEndSession (st : ServerState) (sid : String) : ServerState × List Output :=
  match JsMap.get st.sockets sid with
  | none => (st, [])
  | some sock =>
    if isHost st sid then
      match currentRoom sock.roomId with
      | none => (st, [])
      | some roomId =>
        let memberSids := ((JsMap.get st.roomUsers roomId).getD []).map (·.1)
        let r := leaveAll st memberSids
        let st1 := r.1
        ({ st1 with roomUsers := JsMap.del st1.roomUsers roomId,
                    roomHosts := JsMap.del st1.roomHosts roomId,
                    roomSettings := JsMap.del st1.roomSettings roomId },
         Output.toAll roomId (Msg.sessionEnded sock.user.username) :: r.2)
    else (st, [Output.toSock sid (Msg.hostError "Only the host can end the session")])

/-- The `chat-message` handler: broadcast to the whole room and append
to the durable chat history (capped server-side), with no check of the
`chatDisabled` setting. -/
def chatMessage (st : ServerState) (sid message : String) : ServerState × List Output :=
  match JsMap.get st.sockets sid with
  | none => (st, [])
  | some sock =>
    match currentRoom sock.roomId with
    | none => (st, [])
    | some roomId =>
      (st, [Output.toAll roomId (Msg.chatMsg sock.user.uid sock.user.username message),
            Output.store (DbOp.pushChatMessage roomId sock.user.uid sock.user.username message)])

/-- `debouncedSave(roomId, fileId, content)`: cancel the room's armed
timer (modelled by overwriting the stored handle with a fresh one — a
replaced handle can never fire), buffer the latest content for the
file when `fileId` is truthy and `content` non-null, and arm a new
2000ms timer. -/
def debouncedSave (st : ServerState) (roomId : String)
    (fileId content : Option String) : ServerState :=
  let pendingSaves' :=
    match fileId, content with
    | some fid, some c =>
      if fid = "" then st.pendingSaves
      else
        let m := (JsMap.get st.pendingSaves roomId).getD []
        JsMap.set st.pendingSaves roomId (JsMap.set m fid c)
    | _, _ => st.pendingSaves
  { st with pendingSaves := pendingSaves',
            saveTimers := JsMap.set st.saveTimers roomId st.nextTimer,
            nextTimer := st.nextTimer + 1 }

/-- The `code-change` handler: re-broadcast to the room minus the
sender, then feed the write-back debouncer. -/
def codeChange (st : ServerState) (sid fileId content : String) :
    ServerState × List Output :=
  match JsMap.get st.sockets sid with
  | none => (st, [])
  | some sock =>
    match currentRoom sock.roomId with
    | none => (st, [])
    | some roomId =>
      (debouncedSave st roomId (some fileId) (some content),
       [Output.toOthers roomId sid (Msg.codeChangeMsg fileId content)])

/-- The `for (const [fId, fContent] of filesToSave)` loop of the timer
callback: one `RoomState.findOneAndUpdate` per buffered file, in
insertion order.  `fails` says which store calls reject; the first
rejection throws into the surrounding `catch`, so the remaining files
are not issued.  Returns the issued outputs and whether the loop ran to
completion. -/
def runSaves (roomId : String) (files : List (String × String))
    (fails : String → Bool) : List Output × Bool :=
  match files with
  | [] => ([], true)
  | (f, c) :: rest =>
    if fails f then ([Output.store (DbOp.updateFileFailed roomId f)], false)
    else
      let r := runSaves roomId rest fails
      (Output.store (DbOp.updateFileContent roomId f c) :: r.1, r.2)

/-- The `setTimeout` callback of `debouncedSave` firing for the timer
handle `tid`.  Only the currently armed handle can fire
(`clearTimeout` removed any replaced one).  On success the room's
pending buffer is deleted; when a store call throws, the `catch` skips
`pendingSaves.delete(roomId)`, so the buffer is retained.  The timer
handle is deleted in every case (the statement after the
`try`/`catch`). -/
def fireTimer (st : ServerState) (roomId : String) (tid : Nat)
    (fails : String → Bool) : ServerState × List Output :=
  if JsMap.get st.saveTimers roomId = some tid then
    match JsMap.get st.pendingSaves roomId with
    | some files =>
      if files.length > 0 then
        let r := runSaves roomId files fails
        let pending' := if r.2 then JsMap.del st.pendingSaves roomId else st.pendingSaves
        ({ st with pendingSaves := pending',
                   saveTimers := JsMap.del st.saveTimers roomId }, r.1)
      else ({ st with saveTimers := JsMap.del st.saveTimers roomId }, [])
    | none => ({ st with saveTimers := JsMap.del st.saveTimers roomId }, [])
  else (st, [])

/-- The first registered `voice-join` handler (the one using
`global.voiceRooms`): room id is `socket.roomId || voiceRoomId`. -/
def voiceJoinFirst (st : ServerState) (sid peerId : String)
    (payloadRoom : Option String) : ServerState × List Output :=
  match JsMap.get st.sockets sid with
  | none => (st, [])
  | some sock =>
    match currentRoom (jsOr sock.roomId payloadRoom) with
    | none => (st, [])
    | some roomId =>
      let room := (JsMap.get st.voiceRooms roomId).getD []
      let others := (room.filter (fun p => decide (p.peerId ≠ peerId))).map (·.peerId)
      let room' :=
        if room.any (fun p => decide (p.peerId = peerId)) then room
        else room ++ [{ peerId := peerId, socketId := sid, isMuted := true,
                        username := sock.user.username }]
      let sock' := { sock with voicePeerId := some peerId }
      ({ st with voiceRooms := JsMap.set st.voiceRooms roomId room',
                 sockets := JsMap.set st.sockets sid sock' },
       [Output.toSock sid (Msg.voiceParticipantList others),
        Output.toAll roomId (Msg.voiceJoined peerId sid)])

/-- The second registered `voice-join` handler (the per-connection
`voiceParticipants` closure): room id is `voiceRoomId || socket.roomId`.
Both handlers run, in registration order, when the event arrives. -/
def voiceJoinSecond (st : ServerState) (sid peerId : String)
    (payloadRoom : Option String) : ServerState × List Output :=
  match JsMap.get st.sockets sid with
  | none => (st, [])
  | some sock =>
    match currentRoom (jsOr payloadRoom sock.roomId) with
    | none => (st, [])
    | some roomId =>
      let roster := (JsMap.get sock.voiceParticipants roomId).getD []
      let roster' := if roster.contains peerId then roster else roster ++ [peerId]
      let sock' := { sock with
        voiceParticipants := JsMap.set sock.voiceParticipants roomId roster' }
      let existing := roster'.filter (fun p => decide (p ≠ peerId))
      ({ st with sockets := JsMap.set st.sockets sid sock' },
       Output.toOthers roomId sid (Msg.voiceJoined peerId sid)
         :: (if existing.length > 0 then [Output.toSock sid (Msg.voiceParticipantList existing)]
             else []))

/-- A `voice-join` event: both registered handlers run in order. -/
def voiceJoin (st : ServerState) (sid peerId : String)
    (payloadRoom : Option String) : ServerState × List Output :=
  let r1 := voiceJoinFirst st sid peerId payloadRoom
  let r2 := voiceJoinSecond r1.1 sid peerId payloadRoom
  (r2.1, r1.2 ++ r2.2)

/-! ## Event sequences -/

inductive Event where
  | connect (sid : String) (user : UserInfo)
  | joinRoom (sid roomId : String) (displayName : Option String) (roomDoc : Option RoomDoc)
  | leaveRoom (sid : String)
  | disconnect (sid : String)
  | codeChange (sid fileId content : String)
  | chatMessage (sid message : String)
  | voiceJoin (sid peerId : String) (payloadRoom : Option String)
  | hostKick (sid targetSid : String)
  | hostTransfer (sid targetSid : String)
  | hostToggleChat (sid : String) (disabled : Bool)
  | hostEndSession (sid : String)
  | timerFire (roomId : String) (tid : Nat) (fails : String → Bool)

def step (st : ServerState) (e : Event) : ServerState × List Output :=
  match e with
  | .connect sid user => connectSocket st sid user
  | .joinRoom sid roomId dn doc => joinRoom st sid roomId dn doc
  | .leaveRoom sid => handleLeaveRoom st sid
  | .disconnect sid => handleLeaveRoom st sid
  | .codeChange sid f c => codeChange st sid f c
  | .chatMessage sid m => chatMessage st sid m
  | .voiceJoin sid p r => voiceJoin st sid p r
  | .hostKick sid t => hostKick st sid t
  | .hostTransfer sid t => hostTransfer st sid t
  | .hostToggleChat sid d => hostToggleChat st sid d
  | .hostEndSession sid => hostEndSession st sid
  | .timerFire roomId tid fails => fireTimer st roomId tid fails

/-- Run a sequence of events from a state, keeping only the state. -/
def run (st : ServerState) (evs : List Event) : ServerState :=
  evs.foldl (fun s e => (step s e).1) st

/-! ## Lemmas about the leave procedure -/

/-- `handleLeaveRoom` is a silent no-op on a connection with no current
room (the `if (!roomId) return;` guard). -/
theorem handleLeaveRoom_of_noRoom (st : ServerState) (sid : String)
    (h : ∀ sock, JsMap.get st.sockets sid = some sock → currentRoom sock.roomId = none) :
    handleLeaveRoom st sid = (st, []) := by
  unfold handleLeaveRoom
  cases hs : JsMap.get st.sockets sid with
  | none => rfl
  | some sock =>
    simp only []
    rw [h sock hs]

/-- After `handleLeaveRoom`, the connection's current room id is unset
(`socket.roomId = null` at the end of every non-early-return path). -/
theorem handleLeaveRoom_clears_room (st : ServerState) (sid : String) :
    ∀ sock, JsMap.get (handleLeaveRoom st sid).1.sockets sid = some sock →
      currentRoom sock.roomId = none := by
  intro sock hmem
  unfold handleLeaveRoom at hmem
  cases hs : JsMap.get st.sockets sid with
  | none =>
    rw [hs] at hmem
    simp only [] at hmem
    rw [hs] at hmem
    exact Option.noConfusion hmem
  | some sock0 =>
    rw [hs] at hmem
    simp only [] at hmem
    cases hr : currentRoom sock0.roomId with
    | none =>
      rw [hr] at hmem
      simp only [] at hmem
      rw [hs] at hmem
      injection hmem with h2
      subst h2
      exact hr
    | some roomId =>
      rw [hr] at hmem
      simp only [] at hmem
      cases hu : JsMap.get st.roomUsers roomId with
      | none =>
        rw [hu] at hmem
        simp only [] at hmem
        rw [JsMap.get_set_self] at hmem
        injection hmem with h2
        subst h2
        rfl
      | some users =>
        rw [hu] at hmem
        simp only [] at hmem
        rw [JsMap.get_set_self] at hmem
        injection hmem with h2
        subst h2
        rfl

/-! ## Concrete states used by witnesses and counterexamples -/

def userA : UserInfo := ⟨"uid-a", "alice", false, ""⟩

def userB : UserInfo := ⟨"uid-b", "bob", false, ""⟩

/-- Two connections in room `R`: `sA` joined first (and is host), then
`sB` joined. -/
def stAB : ServerState :=
  run initState [Event.connect "sA" userA, Event.connect "sB" userB,
    Event.joinRoom "sA" "R" none none, Event.joinRoom "sB" "R" none none]

/-! ## C7: the leave procedure is idempotent -/

/-- **C7** (confirmed): running `handleLeaveRoom` a second time for the
same connection is a silent no-op — the second call leaves every
in-memory map unchanged and emits nothing (no duplicate `user-left`, no
duplicate `host-changed`).  A connection with no current room is the
post-state of the first call, so that case is subsumed: the first call
already cleared `socket.roomId`. -/
theorem leave_idempotent (st : ServerState) (sid : String) :
    handleLeaveRoom (handleLeaveRoom st sid).1 sid = ((handleLeaveRoom st sid).1, []) :=
  handleLeaveRoom_of_noRoom _ _ (handleLeaveRoom_clears_room st sid)

/-! ## C10: host-transfer to an absent target is a silent no-op -/

/-- **C10** (confirmed): if the current host issues `host-transfer`
naming a target socket id that is not in the room's membership map, the
handler changes nothing and emits nothing — no `host-changed`, no
error to the requester. -/
theorem hostTransfer_absent_target_noop (st : ServerState)
    (sid targetSid roomId : String) (sock : SocketSt)
    (users : List (String × UserInfo))
    (hs : JsMap.get st.sockets sid = some sock)
    (hh : isHost st sid = true)
    (hr : currentRoom sock.roomId = some roomId)
    (hu : JsMap.get st.roomUsers roomId = some users)
    (ht : JsMap.hasKey users targetSid = false) :
    hostTransfer st sid targetSid = (st, []) := by
  unfold hostTransfer
  rw [hs]
  simp only []
  rw [hh]
  simp only []
  rw [hr]
  simp only []
  rw [hu]
  simp only []
  rw [ht]
  simp

theorem hostTransfer_absent_target_noop_witness :
    hostTransfer stAB "sA" "sZ" = (stAB, []) :=
  hostTransfer_absent_target_noop stAB "sA" "sZ" "R"
    ⟨userA, some "R", none, []⟩
    [("sA", ⟨"uid-a", "alice", false, "sA"⟩), ("sB", ⟨"uid-b", "bob", false, "sB"⟩)]
    (by decide) (by decide) (by decide) (by decide) (by decide)

/-! ## C4: the persisted owner reclaims host on join -/

/-- **C4** (confirmed): when a connection whose user id equals the
persisted room owner (`roomDoc.host`) joins, it becomes host
unconditionally — whatever the prior assignment was. -/
theorem join_owner_reclaims_host (st : ServerState) (sid roomId : String)
    (displayName : Option String) (sock : SocketSt) (doc : RoomDoc)
    (hs : JsMap.get st.sockets sid = some sock)
    (hd : doc.host = some sock.user.uid) :
    JsMap.get (joinRoom st sid roomId displayName (some doc)).1.roomHosts roomId
      = some sid := by
  unfold joinRoom
  rw [hs]
  simp only []
  by_cases hdn : jsTrim (displayName.getD "") = "" <;>
    simp [hdn, hd, JsMap.get_set_self]

theorem join_owner_reclaims_host_witness :
    JsMap.get (joinRoom stAB "sB" "R" none (some ⟨some "uid-b"⟩)).1.roomHosts "R"
      = some "sB" :=
  join_owner_reclaims_host stAB "sB" "R" none
    ⟨userB, some "R", none, []⟩ ⟨some "uid-b"⟩
    (by decide) (by decide)

/-! ## C6: host disconnect promotes the first remaining member -/

/-- **C6** (confirmed): when the host `c` of a room disconnects while
the room still has members, the first remaining member (in membership
insertion order) becomes the new host and a `host-changed` notification
is broadcast to the whole room (`io.to(roomId)`), followed by the
`user-left` broadcast. -/
theorem host_disconnect_promotes (st : ServerState) (c roomId : String)
    (sock : SocketSt) (users : List (String × UserInfo))
    (h0 : String) (v0 : UserInfo) (rest : List (String × UserInfo))
    (hs : JsMap.get st.sockets c = some sock)
    (hr : currentRoom sock.roomId = some roomId)
    (hu : JsMap.get st.roomUsers roomId = some users)
    (hhost : JsMap.get st.roomHosts roomId = some c)
    (hrem : JsMap.del users c = (h0, v0) :: rest) :
    JsMap.get (handleLeaveRoom st c).1.roomHosts roomId = some h0 ∧
    h0 ≠ c ∧
    JsMap.get (JsMap.del users c) h0 = some v0 ∧
    (handleLeaveRoom st c).2 =
      [Output.toAll roomId (Msg.hostChanged h0),
       Output.toOthers roomId c (Msg.userLeft c)] := by
  have hne : h0 ≠ c := by
    intro hEq
    have hd := JsMap.get_del_self users c
    rw [hrem, hEq] at hd
    simp [JsMap.get_cons] at hd
  unfold handleLeaveRoom
  rw [hs]
  simp only []
  rw [hr]
  simp only []
  rw [hu]
  simp only []
  rw [hrem]
  refine ⟨?_, hne, ?_, ?_⟩
  · simp [hhost, JsMap.get_set_self]
  · exact JsMap.get_head h0 v0 rest
  · simp [hhost]

theorem host_disconnect_promotes_witness :
    JsMap.get (handleLeaveRoom stAB "sA").1.roomHosts "R" = some "sB" ∧
    "sB" ≠ "sA" ∧
    JsMap.get (JsMap.del
      [("sA", (⟨"uid-a", "alice", false, "sA"⟩ : UserInfo)),
       ("sB", (⟨"uid-b", "bob", false, "sB"⟩ : UserInfo))] "sA") "sB"
      = some ⟨"uid-b", "bob", false, "sB"⟩ ∧
    (handleLeaveRoom stAB "sA").2 =
      [Output.toAll "R" (Msg.hostChanged "sB"),
       Output.toOthers "R" "sA" (Msg.userLeft "sA")] :=
  host_disconnect_promotes stAB "sA" "R"
    ⟨userA, some "R", none, []⟩
    [("sA", ⟨"uid-a", "alice", false, "sA"⟩), ("sB", ⟨"uid-b", "bob", false, "sB"⟩)]
    "sB" ⟨"uid-b", "bob", false, "sB"⟩ []
    (by decide) (by decide) (by decide) (by decide) (by decide)

/-! ## C8: a connection can be in two rooms' membership maps -/

/-- **C8** counterexample: the `join-room` handler never removes the
connection from its previous room, so after `s1` joins room `A` and
then room `B`, it is still present in `A`'s membership (the claim says
it should no longer be present in `A`). -/
theorem join_second_room_keeps_first_cex :
    JsMap.get (run initState [Event.connect "s1" userA,
        Event.joinRoom "s1" "A" none none,
        Event.joinRoom "s1" "B" none none]).roomUsers "A"
      = some [("s1", ⟨"uid-a", "alice", false, "s1"⟩)] ∧
    JsMap.get (run initState [Event.connect "s1" userA,
        Event.joinRoom "s1" "A" none none,
        Event.joinRoom "s1" "B" none none]).roomUsers "B"
      = some [("s1", ⟨"uid-a", "alice", false, "s1"⟩)] := by
  decide

/-- **C8** amended: a connection that joins room `B` after having
joined room `A` stays in `A`'s membership map (join-room performs no
leave of the previous room), so a connection id can appear in several
rooms' memberships at once. -/
theorem join_second_room_keeps_first (st : ServerState)
    (sid roomA roomB : String) (dn : Option String) (doc : Option RoomDoc)
    (sock : SocketSt) (usersA : List (String × UserInfo))
    (hs : JsMap.get st.sockets sid = some sock)
    (hA : JsMap.get st.roomUsers roomA = some usersA)
    (hmem : JsMap.hasKey usersA sid = true)
    (hAB : roomA ≠ roomB) :
    JsMap.get (joinRoom st sid roomB dn doc).1.roomUsers roomA = some usersA ∧
    ∃ usersB, JsMap.get (joinRoom st sid roomB dn doc).1.roomUsers roomB = some usersB ∧
      JsMap.hasKey usersB sid = true := by
  unfold joinRoom
  rw [hs]
  simp only []
  constructor
  · rw [JsMap.get_set_ne _ _ _ _ hAB]
    exact hA
  · refine ⟨_, JsMap.get_set_self _ _ _, ?_⟩
    simp [JsMap.hasKey, JsMap.get_set_self]

theorem join_second_room_keeps_first_witness :
    JsMap.get (joinRoom (run initState [Event.connect "s1" userA,
        Event.joinRoom "s1" "A" none none]) "s1" "B" none none).1.roomUsers "A"
      = some [("s1", ⟨"uid-a", "alice", false, "s1"⟩)] ∧
    ∃ usersB, JsMap.get (joinRoom (run initState [Event.connect "s1" userA,
        Event.joinRoom "s1" "A" none none]) "s1" "B" none none).1.roomUsers "B"
      = some usersB ∧ JsMap.hasKey usersB "s1" = true :=
  join_second_room_keeps_first _ "s1" "A" "B" none none
    ⟨userA, some "A", none, []⟩
    [("s1", ⟨"uid-a", "alice", false, "s1"⟩)]
    (by decide) (by decide) (by decide) (by decide)

/-! ## C5: the server does not enforce the chat-disabled flag -/

/-- **C5** counterexample: with `sA` host of room `R`, after
`host-toggle-chat(true)` the flag is set and `chat-toggled` is
broadcast to everyone — but a subsequent `chat-message` from the
non-host `sB` is still broadcast to the whole room and appended to the
durable chat history, where the claim says it must be rejected.  (The
`chat-message` handler never reads `roomSettings.chatDisabled`.) -/
theorem chat_disabled_not_enforced_cex :
    isHost stAB "sA" = true ∧
    isHost (hostToggleChat stAB "sA" true).1 "sB" = false ∧
    (hostToggleChat stAB "sA" true).2
      = [Output.toAll "R" (Msg.chatToggled true "alice")] ∧
    JsMap.get (hostToggleChat stAB "sA" true).1.roomSettings "R"
      = some ⟨true⟩ ∧
    (chatMessage (hostToggleChat stAB "sA" true).1 "sB" "hi").2
      = [Output.toAll "R" (Msg.chatMsg "uid-b" "bob" "hi"),
         Output.store (DbOp.pushChatMessage "R" "uid-b" "bob" "hi")] := by
  decide

/-- **C5** amended: after the host's `host-toggle-chat(true)`, the
chat-disabled flag is recorded and every member receives
`chat-toggled{disabled:true}`; however a subsequent `chat-message`
from a (non-host) member is not rejected by the server — it is
broadcast to the room and appended to the durable history exactly as
when chat is enabled. -/
theorem host_toggle_chat_not_enforced (st : ServerState)
    (sid sidB roomId msg : String) (sock sockB : SocketSt)
    (hs : JsMap.get st.sockets sid = some sock)
    (hh : isHost st sid = true)
    (hr : currentRoom sock.roomId = some roomId)
    (hset : JsMap.hasKey st.roomSettings roomId = true)
    (hsB : JsMap.get st.sockets sidB = some sockB)
    (hrB : currentRoom sockB.roomId = some roomId) :
    JsMap.get (hostToggleChat st sid true).1.roomSettings roomId
      = some ⟨true⟩ ∧
    (hostToggleChat st sid true).2
      = [Output.toAll roomId (Msg.chatToggled true sock.user.username)] ∧
    chatMessage (hostToggleChat st sid true).1 sidB msg
      = ((hostToggleChat st sid true).1,
         [Output.toAll roomId (Msg.chatMsg sockB.user.uid sockB.user.username msg),
          Output.store (DbOp.pushChatMessage roomId sockB.user.uid sockB.user.username msg)]) := by
  have hstep : hostToggleChat st sid true =
      ({ st with roomSettings := JsMap.set st.roomSettings roomId ⟨true⟩ },
       [Output.toAll roomId (Msg.chatToggled true sock.user.username)]) := by
    unfold hostToggleChat
    rw [hs]
    simp only []
    rw [hh]
    simp only []
    rw [hr]
    simp only []
    rw [hset]
    simp
  rw [hstep]
  refine ⟨by simp [JsMap.get_set_self], rfl, ?_⟩
  unfold chatMessage
  simp only []
  rw [hsB]
  simp only []
  rw [hrB]

theorem host_toggle_chat_not_enforced_witness :
    JsMap.get (hostToggleChat stAB "sA" true).1.roomSettings "R"
      = some ⟨true⟩ ∧
    (hostToggleChat stAB "sA" true).2
      = [Output.toAll "R" (Msg.chatToggled true "alice")] ∧
    chatMessage (hostToggleChat stAB "sA" true).1 "sB" "hi"
      = ((hostToggleChat stAB "sA" true).1,
         [Output.toAll "R" (Msg.chatMsg "uid-b" "bob" "hi"),
          Output.store (DbOp.pushChatMessage "R" "uid-b" "bob" "hi")]) :=
  host_toggle_chat_not_enforced stAB "sA" "sB" "R" "hi"
    ⟨userA, some "R", none, []⟩ ⟨userB, some "R", none, []⟩
    (by decide) (by decide) (by decide) (by decide) (by decide) (by decide)

/-! ## C9: roomless events are dropped, except voice-join's fallback -/

/-- A freshly connected socket with no current room. -/
def stLone : ServerState := run initState [Event.connect "sA" userA]

/-- **C9** counterexample: a `voice-join` from a connection whose
current room id is unset is not silently dropped when the payload
carries a room id — the handler falls back to
`socket.roomId || voiceRoomId`, mutates the voice roster of that room
and broadcasts `voice-join`, where the claim says no state is mutated
and nothing is broadcast. -/
theorem voice_join_roomless_not_dropped_cex :
    JsMap.get stLone.sockets "sA" = some ⟨userA, none, none, []⟩ ∧
    (voiceJoin stLone "sA" "p1" (some "R")).1.voiceRooms
      = [("R", [⟨"p1", "sA", true, "alice"⟩])] ∧
    (voiceJoin stLone "sA" "p1" (some "R")).2
      = [Output.toSock "sA" (Msg.voiceParticipantList []),
         Output.toAll "R" (Msg.voiceJoined "p1" "sA"),
         Output.toOthers "R" "sA" (Msg.voiceJoined "p1" "sA")] := by
  decide

/-- **C9** amended: inbound events guarded by the connection's current
room id alone (e.g. `code-change`, `chat-message`) are silently dropped
when it is unset — no state change, no broadcast, no error.  The
`voice-join` handlers instead fall back to the room id supplied in the
event payload: with no payload room id the event is dropped, but with
one the join proceeds and is broadcast to that room. -/
theorem roomless_events_dropped_except_voice (st : ServerState)
    (sid : String) (sock : SocketSt) (f c m p : String)
    (hs : JsMap.get st.sockets sid = some sock)
    (hnone : sock.roomId = none) :
    codeChange st sid f c = (st, []) ∧
    chatMessage st sid m = (st, []) ∧
    voiceJoin st sid p none = (st, []) ∧
    ∀ R : String, R ≠ "" →
      Output.toAll R (Msg.voiceJoined p sid) ∈ (voiceJoin st sid p (some R)).2 := by
  refine ⟨?_, ?_, ?_, ?_⟩
  · unfold codeChange
    rw [hs]
    simp only []
    rw [hnone]
    rfl
  · unfold chatMessage
    rw [hs]
    simp only []
    rw [hnone]
    rfl
  · have h1 : voiceJoinFirst st sid p none = (st, []) := by
      unfold voiceJoinFirst
      rw [hs]
      simp only []
      rw [hnone]
      rfl
    have h2 : voiceJoinSecond st sid p none = (st, []) := by
      unfold voiceJoinSecond
      rw [hs]
      simp only []
      rw [hnone]
      rfl
    unfold voiceJoin
    simp [h1, h2]
  · intro R hR
    have h1 : ∃ o, (voiceJoinFirst st sid p (some R)).2 =
        [o, Output.toAll R (Msg.voiceJoined p sid)] := by
      unfold voiceJoinFirst
      rw [hs]
      simp only []
      rw [hnone]
      simp [jsOr, currentRoom, hR]
    obtain ⟨o, h1⟩ := h1
    unfold voiceJoin
    simp only []
    rw [h1]
    simp

theorem roomless_events_dropped_except_voice_witness :
    codeChange stLone "sA" "f1" "x" = (stLone, []) ∧
    chatMessage stLone "sA" "hi" = (stLone, []) ∧
    voiceJoin stLone "sA" "p1" none = (stLone, []) ∧
    Output.toAll "R" (Msg.voiceJoined "p1" "sA") ∈ (voiceJoin stLone "sA" "p1" (some "R")).2 := by
  have h := roomless_events_dropped_except_voice stLone "sA"
    ⟨userA, none, none, []⟩ "f1" "x" "hi" "p1" (by decide) (by decide)
  exact ⟨h.1, h.2.1, h.2.2.1, h.2.2.2 "R" (by decide)⟩

/-! ## C2: debounce coalescing -/

/-- A burst of `N` successive `recordChange` calls for one room (each
`code-change` event calls `debouncedSave(roomId, fileId, content)`). -/
def recordChanges (st : ServerState) (roomId : String)
    (changes : List (String × String)) : ServerState :=
  match changes with
  | [] => st
  | fc :: rest => recordChanges (debouncedSave st roomId (some fc.1) (some fc.2)) roomId rest

/-- The room's pending buffer after a burst: successive `Map.set`s. -/
def bufFold (m : List (String × String)) (changes : List (String × String)) :
    List (String × String) :=
  match changes with
  | [] => m
  | fc :: rest => bufFold (JsMap.set m fc.1 fc.2) rest

/-- Spec-side definition, used to compare the code's buffer with the
spec's words: the latest content recorded for resource `f` in a burst
is the content of the last change of the burst naming `f`. -/
def latestContent (changes : List (String × String)) (f : String) : Option String :=
  match changes with
  | [] => none
  | fc :: rest =>
    match latestContent rest f with
    | some c => some c
    | none => if fc.1 = f then some fc.2 else none

theorem bufFold_get (changes : List (String × String)) :
    ∀ m f, JsMap.get (bufFold m changes) f =
      match latestContent changes f with
      | some c => some c
      | none => JsMap.get m f := by
  induction changes with
  | nil => intro m f; rfl
  | cons fc rest ih =>
    intro m f
    show JsMap.get (bufFold (JsMap.set m fc.1 fc.2) rest) f = _
    rw [ih]
    cases hl : latestContent rest f with
    | some c => simp [latestContent, hl]
    | none =>
      by_cases hf : fc.1 = f
      · subst hf
        simp [latestContent, hl, JsMap.get_set_self]
      · simp [latestContent, hl, hf, JsMap.get_set_ne _ _ _ _ (Ne.symm hf)]

theorem bufFold_keys_nodup (changes : List (String × String)) :
    ∀ m, (m.map Prod.fst).Nodup → ((bufFold m changes).map Prod.fst).Nodup := by
  induction changes with
  | nil => intro m h; exact h
  | cons fc rest ih => intro m h; exact ih _ (JsMap.nodup_keys_set m fc.1 fc.2 h)

theorem bufFold_ne_nil (changes : List (String × String)) :
    ∀ m, m ≠ [] → bufFold m changes ≠ [] := by
  induction changes with
  | nil => intro m h; exact h
  | cons fc rest ih => intro m _; exact ih _ (JsMap.set_ne_nil m fc.1 fc.2)

theorem bufFold_nil_ne_nil (changes : List (String × String)) (h : changes ≠ []) :
    bufFold [] changes ≠ [] := by
  cases changes with
  | nil => exact absurd rfl h
  | cons fc rest => exact bufFold_ne_nil rest _ (JsMap.set_ne_nil [] fc.1 fc.2)

/-- The state after a burst: latest contents buffered under one key,
one armed timer whose handle is the last allocated one. -/
theorem recordChanges_state (roomId : String) :
    ∀ (changes : List (String × String)) (st : ServerState), changes ≠ [] →
      (∀ fc ∈ changes, fc.1 ≠ "") →
      recordChanges st roomId changes =
        { st with
          pendingSaves := JsMap.set st.pendingSaves roomId
            (bufFold ((JsMap.get st.pendingSaves roomId).getD []) changes),
          saveTimers := JsMap.set st.saveTimers roomId
            (st.nextTimer + (changes.length - 1)),
          nextTimer := st.nextTimer + changes.length } := by
  intro changes
  induction changes with
  | nil => intro st h _; exact absurd rfl h
  | cons fc rest ih =>
    intro st _ hfid
    have hfc : fc.1 ≠ "" := hfid fc (List.mem_cons_self _ _)
    have hstep : debouncedSave st roomId (some fc.1) (some fc.2) =
        { st with
          pendingSaves := JsMap.set st.pendingSaves roomId
            (JsMap.set ((JsMap.get st.pendingSaves roomId).getD []) fc.1 fc.2),
          saveTimers := JsMap.set st.saveTimers roomId st.nextTimer,
          nextTimer := st.nextTimer + 1 } := by
      unfold debouncedSave
      simp [hfc]
    by_cases hrest : rest = []
    · subst hrest
      show recordChanges (debouncedSave st roomId (some fc.1) (some fc.2)) roomId [] = _
      rw [hstep]
      simp [recordChanges, bufFold]
    · show recordChanges (debouncedSave st roomId (some fc.1) (some fc.2)) roomId rest = _
      rw [hstep]
      rw [ih _ hrest (fun fc' h' => hfid fc' (List.mem_cons_of_mem _ h'))]
      have hlen : List.length rest ≥ 1 := List.length_pos.mpr hrest
      simp only [JsMap.get_set_self, JsMap.set_set_self, Option.getD_some,
        List.length_cons]
      have h1 : st.nextTimer + 1 + (rest.length - 1)
          = st.nextTimer + (rest.length + 1 - 1) := by omega
      have h2 : st.nextTimer + 1 + rest.length
          = st.nextTimer + (rest.length + 1) := by omega
      rw [h1, h2]
      rfl

/-- If no store call rejects, the flush loop issues one update per
buffered file, in order. -/
theorem runSaves_all_ok (roomId : String) (fails : String → Bool) :
    ∀ files : List (String × String), (∀ fc ∈ files, fails fc.1 = false) →
      runSaves roomId files fails =
        (files.map (fun fc => Output.store (DbOp.updateFileContent roomId fc.1 fc.2)), true) := by
  intro files
  induction files with
  | nil => intro _; rfl
  | cons fc rest ih =>
    intro h
    have h1 : fails fc.1 = false := h fc (List.mem_cons_self _ _)
    unfold runSaves
    rw [h1]
    simp [ih (fun fc' h' => h fc' (List.mem_cons_of_mem _ h'))]

/-- **C2** (confirmed): a burst of `N ≥ 1` `recordChange` calls for one
room leaves exactly one armed timer (each call cancelled/replaced the
previous handle, and a replaced handle can no longer fire), a single
pending buffer holding the latest content for each touched resource;
firing the armed timer produces exactly one store update per touched
resource carrying that latest content, and afterwards both the buffer
and the timer are gone, so no second flush can happen. -/
theorem debounce_coalesces (st : ServerState) (roomId : String)
    (changes : List (String × String))
    (hne : changes ≠ [])
    (hfid : ∀ fc ∈ changes, fc.1 ≠ "")
    (hfresh : JsMap.get st.pendingSaves roomId = none) :
    ∃ files tid,
      JsMap.get (recordChanges st roomId changes).saveTimers roomId = some tid ∧
      JsMap.get (recordChanges st roomId changes).pendingSaves roomId = some files ∧
      files ≠ [] ∧
      (files.map Prod.fst).Nodup ∧
      (∀ f, JsMap.get files f = latestContent changes f) ∧
      (∀ tid', tid' ≠ tid →
        fireTimer (recordChanges st roomId changes) roomId tid' (fun _ => false)
          = (recordChanges st roomId changes, [])) ∧
      (fireTimer (recordChanges st roomId changes) roomId tid (fun _ => false)).2
        = files.map (fun fc => Output.store (DbOp.updateFileContent roomId fc.1 fc.2)) ∧
      JsMap.get (fireTimer (recordChanges st roomId changes) roomId tid
        (fun _ => false)).1.pendingSaves roomId = none ∧
      JsMap.get (fireTimer (recordChanges st roomId changes) roomId tid
        (fun _ => false)).1.saveTimers roomId = none := by
  rw [recordChanges_state roomId changes st hne hfid]
  rw [hfresh]
  simp only [Option.getD_none]
  refine ⟨bufFold [] changes, st.nextTimer + (changes.length - 1),
    JsMap.get_set_self _ _ _, JsMap.get_set_self _ _ _,
    bufFold_nil_ne_nil changes hne,
    bufFold_keys_nodup changes [] (by simp),
    ?_, ?_, ?_, ?_, ?_⟩
  · intro f
    rw [bufFold_get changes [] f]
    cases latestContent changes f <;> rfl
  · intro tid' hne'
    unfold fireTimer
    rw [JsMap.get_set_self]
    simp [hne'.symm]
  · unfold fireTimer
    rw [JsMap.get_set_self, if_pos rfl, JsMap.get_set_self]
    simp only []
    rw [if_pos (List.length_pos.mpr (bufFold_nil_ne_nil changes hne))]
    rw [runSaves_all_ok roomId (fun _ => false) (bufFold [] changes) (fun _ _ => rfl)]
  · unfold fireTimer
    rw [JsMap.get_set_self, if_pos rfl, JsMap.get_set_self]
    simp only []
    rw [if_pos (List.length_pos.mpr (bufFold_nil_ne_nil changes hne))]
    rw [runSaves_all_ok roomId (fun _ => false) (bufFold [] changes) (fun _ _ => rfl)]
    simp [JsMap.get_del_self]
  · unfold fireTimer
    rw [JsMap.get_set_self, if_pos rfl, JsMap.get_set_self]
    simp only []
    rw [if_pos (List.length_pos.mpr (bufFold_nil_ne_nil changes hne))]
    rw [runSaves_all_ok roomId (fun _ => false) (bufFold [] changes) (fun _ _ => rfl)]
    simp [JsMap.get_del_self]

theorem debounce_coalesces_witness :
    ∃ files tid,
      JsMap.get (recordChanges initState "R"
        [("f1", "a"), ("f1", "ab"), ("f2", "x")]).saveTimers "R" = some tid ∧
      JsMap.get (recordChanges initState "R"
        [("f1", "a"), ("f1", "ab"), ("f2", "x")]).pendingSaves "R" = some files ∧
      files ≠ [] ∧
      (files.map Prod.fst).Nodup ∧
      (∀ f, JsMap.get files f
        = latestContent [("f1", "a"), ("f1", "ab"), ("f2", "x")] f) ∧
      (∀ tid', tid' ≠ tid →
        fireTimer (recordChanges initState "R"
          [("f1", "a"), ("f1", "ab"), ("f2", "x")]) "R" tid' (fun _ => false)
          = (recordChanges initState "R" [("f1", "a"), ("f1", "ab"), ("f2", "x")], [])) ∧
      (fireTimer (recordChanges initState "R"
        [("f1", "a"), ("f1", "ab"), ("f2", "x")]) "R" tid (fun _ => false)).2
        = files.map (fun fc => Output.store (DbOp.updateFileContent "R" fc.1 fc.2)) ∧
      JsMap.get (fireTimer (recordChanges initState "R"
        [("f1", "a"), ("f1", "ab"), ("f2", "x")]) "R" tid
        (fun _ => false)).1.pendingSaves "R" = none ∧
      JsMap.get (fireTimer (recordChanges initState "R"
        [("f1", "a"), ("f1", "ab"), ("f2", "x")]) "R" tid
        (fun _ => false)).1.saveTimers "R" = none :=
  debounce_coalesces initState "R" [("f1", "a"), ("f1", "ab"), ("f2", "x")]
    (by decide) (by decide) (by decide)

/-! ## C3: a failing store call aborts the whole flush cycle -/

/-- The room-`R` state with two buffered files, built from live
events: `sA` joins `R` and edits `f1` then `f2`. -/
def stTwoFiles : ServerState :=
  run initState [Event.connect "sA" userA, Event.joinRoom "sA" "R" none none,
    Event.codeChange "sA" "f1" "a", Event.codeChange "sA" "f2" "b"]

/-- **C3** counterexample: with `f1` and `f2` buffered for room `R` and
the store rejecting `f1`, the flush issues nothing for `f2` (the claim
says the other buffered resources are still issued) and the whole
buffer — including the failed `f1` entry — is retained (the claim says
the failed update is dropped and not retried). -/
theorem flush_failure_cex :
    JsMap.get stTwoFiles.pendingSaves "R" = some [("f1", "a"), ("f2", "b")] ∧
    (fireTimer stTwoFiles "R" 1 (fun f => f == "f1")).2
      = [Output.store (DbOp.updateFileFailed "R" "f1")] ∧
    JsMap.get (fireTimer stTwoFiles "R" 1 (fun f => f == "f1")).1.pendingSaves "R"
      = some [("f1", "a"), ("f2", "b")] := by
  decide

/-- When the store rejects file `f`, the loop issues the updates
buffered before `f`, then throws: `f` and everything after it are not
issued. -/
theorem runSaves_fail (roomId : String) (fails : String → Bool)
    (f c : String) (post : List (String × String)) :
    ∀ pre, (∀ fc ∈ pre, fails fc.1 = false) → fails f = true →
      runSaves roomId (pre ++ (f, c) :: post) fails =
        (pre.map (fun fc => Output.store (DbOp.updateFileContent roomId fc.1 fc.2))
          ++ [Output.store (DbOp.updateFileFailed roomId f)], false) := by
  intro pre
  induction pre with
  | nil =>
    intro _ hf
    unfold runSaves
    simp [hf]
  | cons p pre' ih =>
    intro h hf
    have h1 : fails p.1 = false := h p (List.mem_cons_self _ _)
    show runSaves roomId (p :: (pre' ++ (f, c) :: post)) fails = _
    unfold runSaves
    rw [h1]
    simp [ih (fun fc' h' => h fc' (List.mem_cons_of_mem _ h')) hf]

/-- **C3** amended: when the store update for one resource fails during
a flush, the failure is caught and the cycle aborts — updates buffered
before the failing resource were already issued, but the failing one
and every resource buffered after it are not issued this cycle; the
room's pending buffer is retained in full (the `catch` skips
`pendingSaves.delete`), the timer handle is still cleared, and the
next flush of that room — re-armed by a subsequent edit to any
resource of the room — attempts every retained update again. -/
theorem flush_failure_aborts_cycle (st : ServerState) (roomId : String)
    (tid : Nat) (fails : String → Bool)
    (pre post : List (String × String)) (f c g d : String)
    (harmed : JsMap.get st.saveTimers roomId = some tid)
    (hbuf : JsMap.get st.pendingSaves roomId = some (pre ++ (f, c) :: post))
    (hpre : ∀ fc ∈ pre, fails fc.1 = false)
    (hf : fails f = true)
    (hg : g ≠ "") :
    (fireTimer st roomId tid fails).2
      = pre.map (fun fc => Output.store (DbOp.updateFileContent roomId fc.1 fc.2))
        ++ [Output.store (DbOp.updateFileFailed roomId f)] ∧
    (fireTimer st roomId tid fails).1.pendingSaves = st.pendingSaves ∧
    JsMap.get (fireTimer st roomId tid fails).1.saveTimers roomId = none ∧
    (fireTimer
        (debouncedSave (fireTimer st roomId tid fails).1 roomId (some g) (some d))
        roomId (fireTimer st roomId tid fails).1.nextTimer (fun _ => false)).2
      = (JsMap.set (pre ++ (f, c) :: post) g d).map
          (fun fc => Output.store (DbOp.updateFileContent roomId fc.1 fc.2)) := by
  have hlen : 0 < (pre ++ (f, c) :: post).length := by simp
  have hfire : fireTimer st roomId tid fails =
      ({ st with saveTimers := JsMap.del st.saveTimers roomId },
       pre.map (fun fc => Output.store (DbOp.updateFileContent roomId fc.1 fc.2))
         ++ [Output.store (DbOp.updateFileFailed roomId f)]) := by
    unfold fireTimer
    rw [harmed, if_pos rfl, hbuf]
    simp only []
    rw [if_pos hlen]
    rw [runSaves_fail roomId fails f c post pre hpre hf]
    simp
  rw [hfire]
  refine ⟨rfl, rfl, by simp [JsMap.get_del_self], ?_⟩
  have hsave : debouncedSave { st with saveTimers := JsMap.del st.saveTimers roomId }
      roomId (some g) (some d) =
      { st with
        pendingSaves := JsMap.set st.pendingSaves roomId
          (JsMap.set (pre ++ (f, c) :: post) g d),
        saveTimers := JsMap.set (JsMap.del st.saveTimers roomId) roomId st.nextTimer,
        nextTimer := st.nextTimer + 1 } := by
    unfold debouncedSave
    simp [hg, hbuf]
  rw [hsave]
  unfold fireTimer
  rw [JsMap.get_set_self, if_pos rfl, JsMap.get_set_self]
  simp only []
  rw [if_pos (List.length_pos.mpr (JsMap.set_ne_nil _ _ _))]
  rw [runSaves_all_ok roomId (fun _ => false) _ (fun _ _ => rfl)]

theorem flush_failure_aborts_cycle_witness :
    (fireTimer stTwoFiles "R" 1 (fun q => q == "f1")).2
      = List.map (fun fc => Output.store (DbOp.updateFileContent "R" fc.1 fc.2))
          ([] : List (String × String))
        ++ [Output.store (DbOp.updateFileFailed "R" "f1")] ∧
    (fireTimer stTwoFiles "R" 1 (fun q => q == "f1")).1.pendingSaves
      = stTwoFiles.pendingSaves ∧
    JsMap.get (fireTimer stTwoFiles "R" 1 (fun q => q == "f1")).1.saveTimers "R" = none ∧
    (fireTimer
        (debouncedSave (fireTimer stTwoFiles "R" 1 (fun q => q == "f1")).1 "R"
          (some "f2") (some "c"))
        "R" (fireTimer stTwoFiles "R" 1 (fun q => q == "f1")).1.nextTimer
        (fun _ => false)).2
      = (JsMap.set [("f1", "a"), ("f2", "b")] "f2" "c").map
          (fun fc => Output.store (DbOp.updateFileContent "R" fc.1 fc.2)) := by
  have h := flush_failure_aborts_cycle stTwoFiles "R" 1 (fun q => q == "f1")
    [] [("f2", "b")] "f1" "a" "f2" "c"
    (by decide) (by decide) (by decide) (by decide) (by decide)
  exact h

/-! ## C1: the host assignment always names a present member -/

/-- The C1 invariant: for every room, the host assignment is either
unset or names a connection present in that room's membership map. -/
def hostInv (st : ServerState) : Prop :=
  ∀ r h, JsMap.get st.roomHosts r = some h →
    ∃ users, JsMap.get st.roomUsers r = some users ∧
      (JsMap.get users h).isSome = true

theorem hostInv_of_rooms_eq (st st' : ServerState)
    (hH : st'.roomHosts = st.roomHosts) (hU : st'.roomUsers = st.roomUsers)
    (inv : hostInv st) : hostInv st' := by
  intro r h hget
  rw [hH] at hget
  obtain ⟨users, hu, hm⟩ := inv r h hget
  exact ⟨users, by rw [hU]; exact hu, hm⟩

theorem codeChange_preserves_rooms (st : ServerState) (sid f c : String) :
    (codeChange st sid f c).1.roomHosts = st.roomHosts ∧
    (codeChange st sid f c).1.roomUsers = st.roomUsers := by
  unfold codeChange
  constructor <;>
  · split
    · rfl
    · split <;> rfl

theorem chatMessage_preserves_rooms (st : ServerState) (sid m : String) :
    (chatMessage st sid m).1.roomHosts = st.roomHosts ∧
    (chatMessage st sid m).1.roomUsers = st.roomUsers := by
  unfold chatMessage
  constructor <;>
  · split
    · rfl
    · split <;> rfl

theorem voiceJoinFirst_preserves_rooms (st : ServerState) (sid p : String)
    (pr : Option String) :
    (voiceJoinFirst st sid p pr).1.roomHosts = st.roomHosts ∧
    (voiceJoinFirst st sid p pr).1.roomUsers = st.roomUsers := by
  unfold voiceJoinFirst
  constructor <;>
  · split
    · rfl
    · split <;> rfl

theorem voiceJoinSecond_preserves_rooms (st : ServerState) (sid p : String)
    (pr : Option String) :
    (voiceJoinSecond st sid p pr).1.roomHosts = st.roomHosts ∧
    (voiceJoinSecond st sid p pr).1.roomUsers = st.roomUsers := by
  unfold voiceJoinSecond
  constructor <;>
  · split
    · rfl
    · split <;> rfl

theorem voiceJoin_preserves_rooms (st : ServerState) (sid p : String)
    (pr : Option String) :
    (voiceJoin st sid p pr).1.roomHosts = st.roomHosts ∧
    (voiceJoin st sid p pr).1.roomUsers = st.roomUsers := by
  unfold voiceJoin
  constructor
  · rw [show (let r1 := voiceJoinFirst st sid p pr;
        let r2 := voiceJoinSecond r1.1 sid p pr; (r2.1, r1.2 ++ r2.2)).1.roomHosts
        = (voiceJoinSecond (voiceJoinFirst st sid p pr).1 sid p pr).1.roomHosts from rfl]
    rw [(voiceJoinSecond_preserves_rooms _ _ _ _).1,
        (voiceJoinFirst_preserves_rooms _ _ _ _).1]
  · rw [show (let r1 := voiceJoinFirst st sid p pr;
        let r2 := voiceJoinSecond r1.1 sid p pr; (r2.1, r1.2 ++ r2.2)).1.roomUsers
        = (voiceJoinSecond (voiceJoinFirst st sid p pr).1 sid p pr).1.roomUsers from rfl]
    rw [(voiceJoinSecond_preserves_rooms _ _ _ _).2,
        (voiceJoinFirst_preserves_rooms _ _ _ _).2]

theorem hostToggleChat_preserves_rooms (st : ServerState) (sid : String) (d : Bool) :
    (hostToggleChat st sid d).1.roomHosts = st.roomHosts ∧
    (hostToggleChat st sid d).1.roomUsers = st.roomUsers := by
  unfold hostToggleChat
  constructor <;>
  · split
    · rfl
    · split
      · split <;> rfl
      · rfl

theorem fireTimer_preserves_rooms (st : ServerState) (roomId : String)
    (tid : Nat) (fails : String → Bool) :
    (fireTimer st roomId tid fails).1.roomHosts = st.roomHosts ∧
    (fireTimer st roomId tid fails).1.roomUsers = st.roomUsers := by
  unfold fireTimer
  constructor <;>
  · split
    · split
      · split <;> rfl
      · rfl
    · rfl

/-- The atomic end-of-room cleanup (`roomUsers`/`roomHosts`/
`roomSettings` deleted together) preserves the invariant. -/
theorem purgeRoom_hostInv (st : ServerState) (roomId : String) (inv : hostInv st) :
    hostInv { st with roomUsers := JsMap.del st.roomUsers roomId,
                      roomHosts := JsMap.del st.roomHosts roomId,
                      roomSettings := JsMap.del st.roomSettings roomId } := by
  intro r h hget
  simp only [] at hget ⊢
  by_cases hrR : r = roomId
  · subst hrR
    rw [JsMap.get_del_self] at hget
    exact Option.noConfusion hget
  · rw [JsMap.get_del_ne _ _ _ hrR] at hget
    obtain ⟨users, hu, hm⟩ := inv r h hget
    refine ⟨users, ?_, hm⟩
    rw [JsMap.get_del_ne _ _ _ hrR]
    exact hu

/-! Characterizations of the four shapes of `handleLeaveRoom` on a
connection that is in a registered room. -/

/-- Leaving host with at least one remaining member: promotion. -/
theorem handleLeaveRoom_eq_promote (st : ServerState) (sid roomId : String)
    (sock : SocketSt) (users : List (String × UserInfo))
    (h0 : String) (v0 : UserInfo) (rest : List (String × UserInfo))
    (hs : JsMap.get st.sockets sid = some sock)
    (hr : currentRoom sock.roomId = some roomId)
    (hu : JsMap.get st.roomUsers roomId = some users)
    (hhost : JsMap.get st.roomHosts roomId = some sid)
    (hrem : JsMap.del users sid = (h0, v0) :: rest) :
    handleLeaveRoom st sid =
      ({ st with
          sockets := JsMap.set st.sockets sid { sock with roomId := none },
          roomUsers := JsMap.set st.roomUsers roomId ((h0, v0) :: rest),
          roomHosts := JsMap.set st.roomHosts roomId h0 },
       [Output.toAll roomId (Msg.hostChanged h0),
        Output.toOthers roomId sid (Msg.userLeft sid)]) := by
  unfold handleLeaveRoom
  rw [hs]
  simp only []
  rw [hr]
  simp only []
  rw [hu]
  simp only []
  rw [hrem]
  simp [hhost]

/-- Leaving host with nobody left: the whole room state is purged. -/
theorem handleLeaveRoom_eq_lastHost (st : ServerState) (sid roomId : String)
    (sock : SocketSt) (users : List (String × UserInfo))
    (hs : JsMap.get st.sockets sid = some sock)
    (hr : currentRoom sock.roomId = some roomId)
    (hu : JsMap.get st.roomUsers roomId = some users)
    (hhost : JsMap.get st.roomHosts roomId = some sid)
    (hrem : JsMap.del users sid = []) :
    handleLeaveRoom st sid =
      ({ st with
          sockets := JsMap.set st.sockets sid { sock with roomId := none },
          roomUsers := JsMap.del (JsMap.set st.roomUsers roomId []) roomId,
          roomHosts := JsMap.del st.roomHosts roomId,
          roomSettings := JsMap.del st.roomSettings roomId },
       [Output.toOthers roomId sid (Msg.userLeft sid)]) := by
  unfold handleLeaveRoom
  rw [hs]
  simp only []
  rw [hr]
  simp only []
  rw [hu]
  simp only []
  rw [hrem]
  simp [hhost]

/-- A non-host (or unassigned-room-host) leave with members left. -/
theorem handleLeaveRoom_eq_nonHost (st : ServerState) (sid roomId : String)
    (sock : SocketSt) (users : List (String × UserInfo))
    (hs : JsMap.get st.sockets sid = some sock)
    (hr : currentRoom sock.roomId = some roomId)
    (hu : JsMap.get st.roomUsers roomId = some users)
    (hhost : ¬ JsMap.get st.roomHosts roomId = some sid)
    (hrem : JsMap.del users sid ≠ []) :
    handleLeaveRoom st sid =
      ({ st with
          sockets := JsMap.set st.sockets sid { sock with roomId := none },
          roomUsers := JsMap.set st.roomUsers roomId (JsMap.del users sid) },
       [Output.toOthers roomId sid (Msg.userLeft sid)]) := by
  unfold handleLeaveRoom
  rw [hs]
  simp only []
  rw [hr]
  simp only []
  rw [hu]
  simp only []
  simp [hhost, List.length_eq_zero, hrem]

/-- A non-host leave that empties the room: the room state is purged. -/
theorem handleLeaveRoom_eq_nonHostLast (st : ServerState) (sid roomId : String)
    (sock : SocketSt) (users : List (String × UserInfo))
    (hs : JsMap.get st.sockets sid = some sock)
    (hr : currentRoom sock.roomId = some roomId)
    (hu : JsMap.get st.roomUsers roomId = some users)
    (hhost : ¬ JsMap.get st.roomHosts roomId = some sid)
    (hrem : JsMap.del users sid = []) :
    handleLeaveRoom st sid =
      ({ st with
          sockets := JsMap.set st.sockets sid { sock with roomId := none },
          roomUsers := JsMap.del (JsMap.set st.roomUsers roomId []) roomId,
          roomHosts := JsMap.del st.roomHosts roomId,
          roomSettings := JsMap.del st.roomSettings roomId },
       [Output.toOthers roomId sid (Msg.userLeft sid)]) := by
  unfold handleLeaveRoom
  rw [hs]
  simp only []
  rw [hr]
  simp only []
  rw [hu]
  simp only []
  rw [hrem]
  simp [hhost]

/-- `handleLeaveRoom` preserves the C1 invariant. -/
theorem handleLeaveRoom_hostInv (st : ServerState) (sid : String)
    (inv : hostInv st) : hostInv (handleLeaveRoom st sid).1 := by
  cases hs : JsMap.get st.sockets sid with
  | none =>
    rw [handleLeaveRoom_of_noRoom st sid (fun sock hsock => by rw [hs] at hsock; cases hsock)]
    exact inv
  | some sock =>
    cases hr : currentRoom sock.roomId with
    | none =>
      rw [handleLeaveRoom_of_noRoom st sid
        (fun sock' hsock => by rw [hs] at hsock; cases hsock; exact hr)]
      exact inv
    | some roomId =>
      cases hu : JsMap.get st.roomUsers roomId with
      | none =>
        have heq : handleLeaveRoom st sid =
            ({ st with sockets := JsMap.set st.sockets sid { sock with roomId := none } },
             []) := by
          unfold handleLeaveRoom
          rw [hs]
          simp only []
          rw [hr]
          simp only []
          rw [hu]
        rw [heq]
        exact hostInv_of_rooms_eq st _ rfl rfl inv
      | some users =>
        by_cases hhost : JsMap.get st.roomHosts roomId = some sid
        · cases husers : JsMap.del users sid with
          | nil =>
            rw [handleLeaveRoom_eq_lastHost st sid roomId sock users hs hr hu hhost husers]
            intro r h hget
            simp only [] at hget ⊢
            by_cases hrR : r = roomId
            · subst hrR
              rw [JsMap.get_del_self] at hget
              exact Option.noConfusion hget
            · rw [JsMap.get_del_ne _ _ _ hrR] at hget
              obtain ⟨users'', hu'', hm''⟩ := inv r h hget
              refine ⟨users'', ?_, hm''⟩
              rw [JsMap.get_del_ne _ _ _ hrR, JsMap.get_set_ne _ _ _ _ hrR]
              exact hu''
          | cons p rest =>
            rw [handleLeaveRoom_eq_promote st sid roomId sock users p.1 p.2 rest
              hs hr hu hhost husers]
            intro r h hget
            simp only [] at hget ⊢
            by_cases hrR : r = roomId
            · subst hrR
              rw [JsMap.get_set_self] at hget
              injection hget with hh2
              subst hh2
              refine ⟨(p.1, p.2) :: rest, JsMap.get_set_self _ _ _, ?_⟩
              rw [JsMap.get_head]
              rfl
            · rw [JsMap.get_set_ne _ _ _ _ hrR] at hget
              obtain ⟨users'', hu'', hm''⟩ := inv r h hget
              refine ⟨users'', ?_, hm''⟩
              rw [JsMap.get_set_ne _ _ _ _ hrR]
              exact hu''
        · cases husers : JsMap.del users sid with
          | nil =>
            rw [handleLeaveRoom_eq_nonHostLast st sid roomId sock users hs hr hu hhost husers]
            intro r h hget
            simp only [] at hget ⊢
            by_cases hrR : r = roomId
            · subst hrR
              rw [JsMap.get_del_self] at hget
              exact Option.noConfusion hget
            · rw [JsMap.get_del_ne _ _ _ hrR] at hget
              obtain ⟨users'', hu'', hm''⟩ := inv r h hget
              refine ⟨users'', ?_, hm''⟩
              rw [JsMap.get_del_ne _ _ _ hrR, JsMap.get_set_ne _ _ _ _ hrR]
              exact hu''
          | cons p rest =>
            rw [handleLeaveRoom_eq_nonHost st sid roomId sock users hs hr hu hhost
              (by rw [husers]; exact List.cons_ne_nil p rest)]
            intro r h hget
            simp only [] at hget ⊢
            by_cases hrR : r = roomId
            · subst hrR
              have hhs : h ≠ sid := by
                intro hEq
                rw [hEq] at hget
                exact hhost hget
              obtain ⟨users'', hu'', hm''⟩ := inv r h hget
              rw [hu] at hu''
              injection hu'' with hu''
              subst hu''
              refine ⟨JsMap.del users sid, JsMap.get_set_self _ _ _, ?_⟩
              rw [JsMap.get_del_ne _ _ _ hhs]
              exact hm''
            · obtain ⟨users'', hu'', hm''⟩ := inv r h hget
              refine ⟨users'', ?_, hm''⟩
              rw [JsMap.get_set_ne _ _ _ _ hrR]
              exact hu''

/-- `join-room` preserves the C1 invariant: whichever host rule fires,
the resulting host is either the joiner (just inserted into the
membership map) or the previous host (still present). -/
theorem joinRoom_hostInv (st : ServerState) (sid roomId : String)
    (dn : Option String) (doc : Option RoomDoc)
    (inv : hostInv st) : hostInv (joinRoom st sid roomId dn doc).1 := by
  unfold joinRoom
  cases hs : JsMap.get st.sockets sid with
  | none => exact inv
  | some sock0 =>
    simp only []
    intro r h hget
    simp only [] at hget ⊢
    by_cases hrR : r = roomId
    · subst hrR
      have hcases : h = sid ∨ JsMap.get st.roomHosts r = some h := by
        repeat' split at hget
        all_goals
          first
          | (rw [JsMap.get_set_self] at hget
             injection hget with hh2
             exact Or.inl hh2.symm)
          | exact Or.inr hget
      obtain hEq | hold := hcases
      · subst hEq
        refine ⟨_, JsMap.get_set_self _ _ _, ?_⟩
        rw [JsMap.get_set_self]
        rfl
      · obtain ⟨users, hu, hm⟩ := inv r h hold
        refine ⟨_, JsMap.get_set_self _ _ _, ?_⟩
        rw [hu]
        simp only [Option.getD_some]
        by_cases hhs : h = sid
        · subst hhs
          rw [JsMap.get_set_self]
          rfl
        · rw [JsMap.get_set_ne _ _ _ _ hhs]
          exact hm
    · have hget' : JsMap.get st.roomHosts r = some h := by
        repeat' split at hget
        all_goals (repeat rw [JsMap.get_set_ne _ _ _ _ hrR] at hget)
        all_goals exact hget
      obtain ⟨users, hu, hm⟩ := inv r h hget'
      refine ⟨users, ?_, hm⟩
      rw [JsMap.get_set_ne _ _ _ _ hrR]
      exact hu

/-- `host-transfer` preserves the C1 invariant: the target is required
to be in the room's membership. -/
theorem hostTransfer_hostInv (st : ServerState) (sid targetSid : String)
    (inv : hostInv st) : hostInv (hostTransfer st sid targetSid).1 := by
  unfold hostTransfer
  cases hs : JsMap.get st.sockets sid with
  | none => exact inv
  | some sock =>
    simp only []
    by_cases hh : isHost st sid = true
    · rw [if_pos hh]
      cases hr : currentRoom sock.roomId with
      | none => exact inv
      | some roomId =>
        simp only []
        cases hu : JsMap.get st.roomUsers roomId with
        | none => exact inv
        | some users =>
          simp only []
          by_cases htgt : JsMap.hasKey users targetSid = true
          · rw [if_pos htgt]
            intro r h hget
            simp only [] at hget ⊢
            by_cases hrR : r = roomId
            · subst hrR
              rw [JsMap.get_set_self] at hget
              injection hget with hh2
              subst hh2
              exact ⟨users, hu, htgt⟩
            · rw [JsMap.get_set_ne _ _ _ _ hrR] at hget
              exact inv r h hget
          · rw [if_neg htgt]
            exact inv
    · rw [if_neg hh]
      exact inv

/-- `host-kick-user` preserves the C1 invariant (its state effect is a
`handleLeaveRoom` of the target). -/
theorem hostKick_hostInv (st : ServerState) (sid targetSid : String)
    (inv : hostInv st) : hostInv (hostKick st sid targetSid).1 := by
  unfold hostKick
  cases hs : JsMap.get st.sockets sid with
  | none => exact inv
  | some sock =>
    simp only []
    by_cases hh : isHost st sid = true
    · rw [if_pos hh]
      cases ht : JsMap.get st.sockets targetSid with
      | none => exact inv
      | some tsock =>
        simp only []
        by_cases hroom : tsock.roomId = sock.roomId
        · rw [if_pos hroom]
          exact handleLeaveRoom_hostInv st targetSid inv
        · rw [if_neg hroom]
          exact inv
    · rw [if_neg hh]
      exact inv

theorem leaveAll_hostInv (sids : List String) :
    ∀ st, hostInv st → hostInv (leaveAll st sids).1 := by
  induction sids with
  | nil => intro st inv; exact inv
  | cons s rest ih =>
    intro st inv
    exact ih _ (handleLeaveRoom_hostInv st s inv)

/-- `host-end-session` preserves the C1 invariant: each member goes
through the leave procedure, then the room's maps are deleted
together. -/
theorem hostEndSession_hostInv (st : ServerState) (sid : String)
    (inv : hostInv st) : hostInv (hostEndSession st sid).1 := by
  unfold hostEndSession
  cases hs : JsMap.get st.sockets sid with
  | none => exact inv
  | some sock =>
    simp only []
    by_cases hh : isHost st sid = true
    · rw [if_pos hh]
      cases hr : currentRoom sock.roomId with
      | none => exact inv
      | some roomId =>
        simp only []
        exact purgeRoom_hostInv _ roomId
          (leaveAll_hostInv (((JsMap.get st.roomUsers roomId).getD []).map (·.1)) st inv)
    · rw [if_neg hh]
      exact inv

/-- Every event of the socket module preserves the C1 invariant. -/
theorem step_hostInv (st : ServerState) (e : Event) (inv : hostInv st) :
    hostInv (step st e).1 := by
  cases e with
  | connect sid user => exact hostInv_of_rooms_eq st _ rfl rfl inv
  | joinRoom sid roomId dn doc => exact joinRoom_hostInv st sid roomId dn doc inv
  | leaveRoom sid => exact handleLeaveRoom_hostInv st sid inv
  | disconnect sid => exact handleLeaveRoom_hostInv st sid inv
  | codeChange sid f c =>
    exact hostInv_of_rooms_eq st _ (codeChange_preserves_rooms st sid f c).1
      (codeChange_preserves_rooms st sid f c).2 inv
  | chatMessage sid m =>
    exact hostInv_of_rooms_eq st _ (chatMessage_preserves_rooms st sid m).1
      (chatMessage_preserves_rooms st sid m).2 inv
  | voiceJoin sid p pr =>
    exact hostInv_of_rooms_eq st _ (voiceJoin_preserves_rooms st sid p pr).1
      (voiceJoin_preserves_rooms st sid p pr).2 inv
  | hostKick sid t => exact hostKick_hostInv st sid t inv
  | hostTransfer sid t => exact hostTransfer_hostInv st sid t inv
  | hostToggleChat sid d =>
    exact hostInv_of_rooms_eq st _ (hostToggleChat_preserves_rooms st sid d).1
      (hostToggleChat_preserves_rooms st sid d).2 inv
  | hostEndSession sid => exact hostEndSession_hostInv st sid inv
  | timerFire roomId tid fails =>
    exact hostInv_of_rooms_eq st _ (fireTimer_preserves_rooms st roomId tid fails).1
      (fireTimer_preserves_rooms st roomId tid fails).2 inv

theorem run_hostInv (evs : List Event) :
    ∀ st, hostInv st → hostInv (run st evs) := by
  induction evs with
  | nil => intro st inv; exact inv
  | cons e rest ih =>
    intro st inv
    exact ih _ (step_hostInv st e inv)

/-- **C1** (confirmed): in every state reachable from the initial
(empty) state by any sequence of events — joins, leaves, disconnects,
host transfers, kicks, end-sessions, and every other modelled event —
each room's host assignment is either unset or names a connection
present in that room's membership map.  (With handlers modelled as
atomic steps; the code's only deviation lives inside the transient
await window of join negotiation, which the claim explicitly allows.) -/
theorem host_assignment_in_membership (evs : List Event) :
    hostInv (run initState evs) :=
  run_hostInv evs initState
    (fun r h hget => by simp [initState, JsMap.get] at hget)
end CodeBridge
